import Mathlib

/-!
Verification of the quickrender scene-graph renderer.

This file gives a shallow embedding of the core data model of the
repository (transform-node tree, scene, per-frame render traversal,
resource arena, user-input direction math, uniform recomputation) and
proves or refutes the frozen claims about it.

Modelling conventions:
  * glam `f32` scalars are embedded as `ℚ`.  All the claims under
    scrutiny are algebraic (composition order, field wiring, guard
    conditions); every concrete counterexample below uses only small
    integer values, on which 32-bit float arithmetic is exact, so the
    verdicts transfer to the real `f32` code.
  * glam matrices are column-major; `Mat4` keeps the four column axes
    with glam's names, and multiplication mirrors `Mat4::mul_mat4`
    (each result column is `self.mul_vec4(rhs.column)`).
  * `Rc<RefCell<ObjectInternal>>` trees are embedded as a pure rose
    tree; interior mutation (`&mut self` methods) becomes a function
    returning the updated node.  The `Weak` parent back-reference is
    embedded as `Option Unit` (`none` = the empty `Weak::new()`).
  * `normalize` divides by a Euclidean length, which is irrational in
    general; `UserInput::direction` is therefore embedded as the raw
    accumulated vector paired with the boolean saying whether the code
    reaches its `normalize` call (the guard `element_sum() > 0.0` is
    exact integer arithmetic on all inputs of interest).
  * panics (`unwrap`, `panic!`) are embedded as `Except` errors.
-/

namespace QuickRender

/-- Rational 3-vector, embedding glam `Vec3`. -/
structure Vec3 where
  x : ℚ
  y : ℚ
  z : ℚ
deriving DecidableEq

/-- Rational 4-vector, embedding glam `Vec4`. -/
structure Vec4 where
  x : ℚ
  y : ℚ
  z : ℚ
  w : ℚ
deriving DecidableEq

namespace Vec3

/-- glam `Vec3::ZERO`. -/
def zero : Vec3 := ⟨0, 0, 0⟩

/-- glam `Vec3::X`. -/
def unitX : Vec3 := ⟨1, 0, 0⟩

/-- glam `Vec3::Y`. -/
def unitY : Vec3 := ⟨0, 1, 0⟩

/-- glam `Vec3::Z`. -/
def unitZ : Vec3 := ⟨0, 0, 1⟩

/-- Componentwise addition, embedding glam `Vec3::add`. -/
def add (a b : Vec3) : Vec3 := ⟨a.x + b.x, a.y + b.y, a.z + b.z⟩

/-- Componentwise subtraction, embedding glam `Vec3::sub`. -/
def sub (a b : Vec3) : Vec3 := ⟨a.x - b.x, a.y - b.y, a.z - b.z⟩

instance : Add Vec3 := ⟨Vec3.add⟩

instance : Sub Vec3 := ⟨Vec3.sub⟩

/-- glam `Vec3::element_sum`: the sum of the three components. -/
def element_sum (v : Vec3) : ℚ := v.x + v.y + v.z

/-- glam `Vec3::length_squared`: the squared Euclidean length. -/
def length_squared (v : Vec3) : ℚ := v.x * v.x + v.y * v.y + v.z * v.z

end Vec3

namespace Vec4

/-- Componentwise addition, embedding glam `Vec4::add`. -/
def add (a b : Vec4) : Vec4 := ⟨a.x + b.x, a.y + b.y, a.z + b.z, a.w + b.w⟩

/-- Scaling of a vector by a scalar, embedding glam `Vec4::mul(f32)`. -/
def smul (a : ℚ) (v : Vec4) : Vec4 := ⟨a * v.x, a * v.y, a * v.z, a * v.w⟩

instance : Add Vec4 := ⟨Vec4.add⟩

end Vec4

/-- Rational 4x4 matrix, embedding glam `Mat4`.  glam stores the four
columns (`x_axis` .. `w_axis`); entry `(row r, column c)` of the matrix
is component `r` of column `c`. -/
structure Mat4 where
  xAxis : Vec4
  yAxis : Vec4
  zAxis : Vec4
  wAxis : Vec4
deriving DecidableEq

namespace Mat4

/-- glam `Mat4::IDENTITY`; also glam `Mat4::default()`, which returns
the identity matrix. -/
def identity : Mat4 :=
  ⟨⟨1, 0, 0, 0⟩, ⟨0, 1, 0, 0⟩, ⟨0, 0, 1, 0⟩, ⟨0, 0, 0, 1⟩⟩

/-- glam `Mat4::mul_vec4`: `x_axis * v.x + y_axis * v.y + z_axis * v.z
+ w_axis * v.w`. -/
def mulVec4 (m : Mat4) (v : Vec4) : Vec4 :=
  Vec4.smul v.x m.xAxis + Vec4.smul v.y m.yAxis +
    Vec4.smul v.z m.zAxis + Vec4.smul v.w m.wAxis

/-- glam `Mat4::mul_mat4` (the `*` operator): each column of the result
is `self.mul_vec4` of the corresponding column of `rhs`. -/
def mul (a b : Mat4) : Mat4 :=
  ⟨a.mulVec4 b.xAxis, a.mulVec4 b.yAxis, a.mulVec4 b.zAxis, a.mulVec4 b.wAxis⟩

instance : Mul Mat4 := ⟨Mat4.mul⟩

/-- glam `Mat4::from_translation(t)`: identity columns with `w_axis =
(t.x, t.y, t.z, 1)`. -/
def from_translation (t : Vec3) : Mat4 :=
  ⟨⟨1, 0, 0, 0⟩, ⟨0, 1, 0, 0⟩, ⟨0, 0, 1, 0⟩, ⟨t.x, t.y, t.z, 1⟩⟩

/-- glam `Mat4::from_scale(s)`: the diagonal scale matrix. -/
def from_scale (s : Vec3) : Mat4 :=
  ⟨⟨s.x, 0, 0, 0⟩, ⟨0, s.y, 0, 0⟩, ⟨0, 0, s.z, 0⟩, ⟨0, 0, 0, 1⟩⟩

/-- glam `Mat4::transpose`. -/
def transpose (m : Mat4) : Mat4 :=
  ⟨⟨m.xAxis.x, m.yAxis.x, m.zAxis.x, m.wAxis.x⟩,
   ⟨m.xAxis.y, m.yAxis.y, m.zAxis.y, m.wAxis.y⟩,
   ⟨m.xAxis.z, m.yAxis.z, m.zAxis.z, m.wAxis.z⟩,
   ⟨m.xAxis.w, m.yAxis.w, m.zAxis.w, m.wAxis.w⟩⟩

/-- Component `r` of a `Vec4` (0 = x .. 3 = w). -/
def Vec4.comp (v : Vec4) : ℕ → ℚ
  | 0 => v.x
  | 1 => v.y
  | 2 => v.z
  | _ => v.w

/-- Column `c` of the matrix (0 = x_axis .. 3 = w_axis). -/
def col (m : Mat4) : ℕ → Vec4
  | 0 => m.xAxis
  | 1 => m.yAxis
  | 2 => m.zAxis
  | _ => m.wAxis

/-- Entry of the matrix at row `r`, column `c`. -/
def e (m : Mat4) (r c : ℕ) : ℚ := Vec4.comp (m.col c) r

/-- Determinant of a 3x3 matrix given row-wise. -/
def det3 (a b c d f g h i j : ℚ) : ℚ :=
  a * (f * j - g * i) - b * (d * j - g * h) + c * (d * i - f * h)

/-- The three indices in `{0, 1, 2, 3}` other than `k`, in order. -/
def other3 : ℕ → ℕ × ℕ × ℕ
  | 0 => (1, 2, 3)
  | 1 => (0, 2, 3)
  | 2 => (0, 1, 3)
  | _ => (0, 1, 2)

/-- Determinant of the 3x3 minor obtained by deleting row `r` and
column `c`. -/
def minorDet (m : Mat4) (r c : ℕ) : ℚ :=
  match other3 r, other3 c with
  | (r0, r1, r2), (c0, c1, c2) =>
      det3 (m.e r0 c0) (m.e r0 c1) (m.e r0 c2)
           (m.e r1 c0) (m.e r1 c1) (m.e r1 c2)
           (m.e r2 c0) (m.e r2 c1) (m.e r2 c2)

/-- Cofactor of the matrix at row `r`, column `c`. -/
def cof (m : Mat4) (r c : ℕ) : ℚ :=
  (if (r + c) % 2 = 0 then 1 else -1) * m.minorDet r c

/-- Determinant, by cofactor expansion along the first row.  Embeds
glam `Mat4::determinant`. -/
def det (m : Mat4) : ℚ :=
  m.e 0 0 * m.cof 0 0 + m.e 0 1 * m.cof 0 1 +
    m.e 0 2 * m.cof 0 2 + m.e 0 3 * m.cof 0 3

/-- glam `Mat4::inverse`: the adjugate divided by the determinant
(entry `(r, c)` of the result is `cof c r / det`).  glam computes the
same quantity through factored 2x2 subdeterminants; on a singular
matrix glam divides by zero (producing non-finite floats) and here the
rational division by zero yields `0` — the claims never touch that
case. -/
def inverse (m : Mat4) : Mat4 :=
  let d := m.det
  ⟨⟨m.cof 0 0 / d, m.cof 0 1 / d, m.cof 0 2 / d, m.cof 0 3 / d⟩,
   ⟨m.cof 1 0 / d, m.cof 1 1 / d, m.cof 1 2 / d, m.cof 1 3 / d⟩,
   ⟨m.cof 2 0 / d, m.cof 2 1 / d, m.cof 2 2 / d, m.cof 2 3 / d⟩,
   ⟨m.cof 3 0 / d, m.cof 3 1 / d, m.cof 3 2 / d, m.cof 3 3 / d⟩⟩

/-- The translation component of an affine matrix: glam
`Mat4::to_scale_rotation_translation` returns as its third component
the `xyz` part of `w_axis`, read directly from the matrix. -/
def translationComponent (m : Mat4) : Vec3 :=
  ⟨m.wAxis.x, m.wAxis.y, m.wAxis.z⟩

end Mat4

/-- The payload of a tree node: `ObjectData` in `object.rs` (`Empty`,
`Model(Rc<Model>)`, `Camera(Rc<Camera>)`).  The `ℕ` id stands for the
identity of the `Rc`-backed payload resource (equally, the slot id of
the arena token in the `DataToken` variant of the code). -/
inductive ObjectData where
  | empty
  | model (id : ℕ)
  | camera (id : ℕ)
deriving DecidableEq

/-- Whether the payload is a camera. -/
def ObjectData.isCamera : ObjectData → Bool
  | .camera _ => true
  | _ => false

/-- Whether the payload is a model. -/
def ObjectData.isModel : ObjectData → Bool
  | .model _ => true
  | _ => false

/-- A tree node: `ObjectInternal` in `object.rs`, with fields `data`,
`xform` (the local transform), `parent` (a `Weak` back-reference,
embedded as `Option Unit` where `none` is the empty `Weak::new()`) and
`children`.  The shared-ownership wrapper `Object(Rc<RefCell<..>>)` is
flattened away: mutating methods return the updated node. -/
inductive Object where
  | mk (data : ObjectData) (xform : Mat4) (parent : Option Unit) (children : List Object)

mutual

/-- Structural decidable equality for `Object` (the derive handler does
not support the nested `List Object` field). -/
def Object.decEq : (a b : Object) → Decidable (a = b)
  | .mk d1 x1 p1 c1, .mk d2 x2 p2 c2 =>
    if hd : d1 = d2 then
      if hx : x1 = x2 then
        if hp : p1 = p2 then
          match Object.decEqList c1 c2 with
          | isTrue hc => isTrue (by rw [hd, hx, hp, hc])
          | isFalse hc => isFalse (by intro h; injection h; contradiction)
        else isFalse (by intro h; injection h; contradiction)
      else isFalse (by intro h; injection h; contradiction)
    else isFalse (by intro h; injection h; contradiction)

/-- Structural decidable equality for lists of `Object`. -/
def Object.decEqList : (a b : List Object) → Decidable (a = b)
  | [], [] => isTrue rfl
  | [], _ :: _ => isFalse (fun h => List.noConfusion h)
  | _ :: _, [] => isFalse (fun h => List.noConfusion h)
  | a :: as, b :: bs =>
    match Object.decEq a b with
    | isTrue h1 =>
      match Object.decEqList as bs with
      | isTrue h2 => isTrue (by rw [h1, h2])
      | isFalse h2 => isFalse (by intro h; injection h; contradiction)
    | isFalse h1 => isFalse (by intro h; injection h; contradiction)

end

instance : DecidableEq Object := Object.decEq

namespace Object

/-- Field accessor for the payload. -/
def data : Object → ObjectData
  | .mk d _ _ _ => d

/-- Field accessor for the local transform. -/
def xform : Object → Mat4
  | .mk _ x _ _ => x

/-- Field accessor for the parent back-reference. -/
def parent : Object → Option Unit
  | .mk _ _ p _ => p

/-- Field accessor for the child list. -/
def children : Object → List Object
  | .mk _ _ _ cs => cs

/-- `Object::new(data, xform)`: fresh node with `parent: Weak::new()`
and `children: Vec::new()`. -/
def new (d : ObjectData) (x : Mat4) : Object := .mk d x none []

/-- `Object::empty()`: `Object::new(ObjectData::Empty, Mat4::default())`
(glam's `Mat4::default()` is the identity). -/
def empty : Object := new .empty Mat4.identity

/-- `Object::with_children(self, children)`: replaces the child list
wholesale and returns the node. -/
def with_children (t : Object) (cs : List Object) : Object :=
  match t with
  | .mk d x p _ => .mk d x p cs

/-- `Object::set(xform)`: replaces the local transform. -/
def set (t : Object) (x : Mat4) : Object :=
  match t with
  | .mk d _ p cs => .mk d x p cs

/-- `Object::add_child(obj)`: appends `obj` to the child list.  (The
commented-out code that would set the child's parent pointer is not
active.) -/
def add_child (t : Object) (c : Object) : Object :=
  match t with
  | .mk d x p cs => .mk d x p (cs ++ [c])

/-- `Object::translate(v)`: `xform *= Mat4::from_translation(v)`, i.e.
the local transform is post-multiplied by the translation matrix. -/
def translate (t : Object) (v : Vec3) : Object :=
  match t with
  | .mk d x p cs => .mk d (x * Mat4.from_translation v) p cs

/-- `Object::scale(v)`: `xform *= Mat4::from_scale(v)`. -/
def scale (t : Object) (v : Vec3) : Object :=
  match t with
  | .mk d x p cs => .mk d (x * Mat4.from_scale v) p cs

/-- `Object::reset()`: sets the local transform to the identity. -/
def reset (t : Object) : Object :=
  match t with
  | .mk d _ p cs => .mk d Mat4.identity p cs

/-- Modelled from the spec: `get_local_xform` (called by
`physics.rs` but not defined in the sources) — "setting a node's local
transform ... and reading back `get_local_xform()`"; it reads the
node's local transform. -/
def get_local_xform (t : Object) : Mat4 := t.xform

mutual

/-- `Object::get_all_internal(objs, prev_xforms)`: computes
`current_xform = self.xform * prev_xforms`, pushes `(self,
current_xform)` onto the accumulator, then recurses into the children
in order, threading the accumulator. -/
def get_all_internal : Object → List (Object × Mat4) → Mat4 → List (Object × Mat4)
  | .mk d x p cs, objs, prev =>
    get_all_children cs (objs ++ [(.mk d x p cs, x * prev)]) (x * prev)

/-- The `for child in children` loop inside `get_all_internal`,
threading the accumulator left to right. -/
def get_all_children : List Object → List (Object × Mat4) → Mat4 → List (Object × Mat4)
  | [], objs, _ => objs
  | c :: rest, objs, cur => get_all_children rest (get_all_internal c objs cur) cur

end

/-- `Object::get_all()`: flattens the subtree, starting from an empty
vector and the identity as the accumulated transform. -/
def get_all (t : Object) : List (Object × Mat4) :=
  t.get_all_internal [] Mat4.identity

/-- `Object::get_all_models()`: filters the flattened list down to the
model payloads, keeping their world transforms. -/
def get_all_models (t : Object) : List (ℕ × Mat4) :=
  t.get_all.filterMap (fun e =>
    match e.1.data with
    | .model id => some (id, e.2)
    | _ => none)

/-- Modelled from the spec: `Object::get_all_cameras` (called by
`Scene::new` but not defined in the sources) — it "scans
`root.flatten()` for the first camera-payload node", so like
`get_all_models` it filters the flattened list down to the camera
payload nodes, keeping the node itself as `Scene::new` consumes it. -/
def get_all_cameras (t : Object) : List (Object × Mat4) :=
  t.get_all.filterMap (fun e =>
    match e.1.data with
    | .camera _ => some e
    | _ => none)

mutual

/-- Specification-side definition (claim C2's words): the depth-first
pre-order listing of the subtree — the node first, then the children's
subtrees in child-list order. -/
def preorderSpec : Object → List Object
  | .mk d x p cs => .mk d x p cs :: preorderSpecList cs

/-- Pre-order listing of a forest, in order. -/
def preorderSpecList : List Object → List Object
  | [] => []
  | c :: rest => preorderSpec c ++ preorderSpecList rest

end

mutual

/-- Helper characterization of the traversal: the flattened list of a
subtree given the already-accumulated transform `prev` of its parent,
without the accumulator threading of `get_all_internal`.  The world
transform of each node keeps the code's grouping `local * prev`. -/
def worldPairs : Object → Mat4 → List (Object × Mat4)
  | .mk d x p cs, prev => (.mk d x p cs, x * prev) :: worldPairsList cs (x * prev)

/-- `worldPairs` over a forest, in order. -/
def worldPairsList : List Object → Mat4 → List (Object × Mat4)
  | [], _ => []
  | c :: rest, cur => worldPairs c cur ++ worldPairsList rest cur

end

mutual

/-- Claim-side definition (claim C1's words): flatten pairing each node
with "the matrix product, evaluated from the root down to n, of every
ancestor's local transform composed with n's own local transform",
i.e. `anc * local` with the ancestor product `anc` accumulated from
the root downwards and starting at the identity. -/
def claimFlatten : Object → Mat4 → List (Object × Mat4)
  | .mk d x p cs, anc => (.mk d x p cs, anc * x) :: claimFlattenList cs (anc * x)

/-- `claimFlatten` over a forest, in order. -/
def claimFlattenList : List Object → Mat4 → List (Object × Mat4)
  | [], _ => []
  | c :: rest, anc => claimFlatten c anc ++ claimFlattenList rest anc

end

/-- Node reached from `t` by following the path of child indices `p`. -/
def nodeAt (t : Object) : List ℕ → Option Object
  | [] => some t
  | i :: p =>
    match t.children.get? i with
    | some c => nodeAt c p
    | none => none

/-- Local transforms along the path `p`, listed from the root down to
the addressed node (inclusive). -/
def localsTo (t : Object) : List ℕ → Option (List Mat4)
  | [] => some [t.xform]
  | i :: p =>
    match t.children.get? i with
    | some c => (localsTo c p).map (fun ls => t.xform :: ls)
    | none => none

mutual

/-- Number of occurrences of `x` as a node value in the tree `t`. -/
def occCount (x : Object) : Object → ℕ
  | .mk d xf p cs => (if .mk d xf p cs = x then 1 else 0) + occCountList x cs

/-- Number of occurrences of `x` as a node value in a forest. -/
def occCountList (x : Object) : List Object → ℕ
  | [] => 0
  | c :: rest => occCount x c + occCountList x rest

end

end Object

/-- `DataToken::try_as_camera`, transported to the payload variant:
yields the camera id when the payload is a camera. -/
def ObjectData.try_as_camera : ObjectData → Option ℕ
  | .camera i => some i
  | _ => none

/-- `Scene` in `scene.rs`: a root node and an optional active-camera
node. -/
structure Scene where
  root : Object
  camera : Option Object

namespace Scene

/-- `Scene::new(objs)`: builds `root = Object::empty().with_children(objs)`
and records `root.get_all_cameras().first().map(|(camera, _)| camera).cloned()`
as the active camera. -/
def new (objs : List Object) : Scene :=
  let root := Object.empty.with_children objs
  { root := root, camera := (root.get_all_cameras).head?.map Prod.fst }

/-- `Scene::set_camera(camera)`: stores the given object unconditionally. -/
def set_camera (s : Scene) (camera : Object) : Scene :=
  { s with camera := some camera }

/-- `Scene::get_camera()`: maps over the stored option; on a
camera payload it returns the camera resource (its id here), on any
other payload it hits `panic!()`, embedded as `Except.error ()`. -/
def get_camera (s : Scene) : Except Unit (Option ℕ) :=
  match s.camera with
  | none => .ok none
  | some obj =>
    match obj.data with
    | .camera c => .ok (some c)
    | _ => .error ()

/-- `Scene::get_camera_object()`: hands out the stored option. -/
def get_camera_object (s : Scene) : Option Object := s.camera

end Scene

/-- The camera uniform recomputed each frame (`camera.rs`,
`update_camera_uniform`).  The `projection` field of the code
(`Mat4::perspective_lh(fov, ratio, near, far)`) is transcendental in
the field of view and is not part of any claim, so it is left out of
the embedding. -/
structure CameraUniform where
  view : Mat4
  camera_pos : Vec3
deriving DecidableEq

/-- `Camera::update_camera_uniform(gpu, xform, ratio)`: pushes `view =
xform.inverse()` and `camera_pos = xform.to_scale_rotation_translation().2`. -/
def update_camera_uniform (xform : Mat4) : CameraUniform :=
  { view := xform.inverse, camera_pos := xform.translationComponent }

/-- The per-model uniform (`model.rs`, `ModelUniform`). -/
structure ModelUniform where
  model : Mat4
  normal : Mat4
deriving DecidableEq

/-- `Model::update_model_uniform(gpu, xform)`: pushes `model = xform`
and `normal = xform.inverse().transpose()`. -/
def update_model_uniform (xform : Mat4) : ModelUniform :=
  { model := xform, normal := xform.inverse.transpose }

/-- `UserInput` in `physics.rs`. -/
structure UserInput where
  move_forward : Bool
  move_backward : Bool
  move_left : Bool
  move_right : Bool
  move_up : Bool
  move_down : Bool
  yaw : ℚ
  pitch : ℚ
deriving DecidableEq

namespace UserInput

/-- The vector accumulated by the six `if` statements of
`UserInput::direction` before the normalization step: forward subtracts
`Vec3::Z`, backward adds it, left adds `Vec3::X`, right subtracts it,
up subtracts `Vec3::Y`, down adds it. -/
def rawDirection (i : UserInput) : Vec3 :=
  let d := Vec3.zero
  let d := if i.move_forward then d - Vec3.unitZ else d
  let d := if i.move_backward then d + Vec3.unitZ else d
  let d := if i.move_left then d + Vec3.unitX else d
  let d := if i.move_right then d - Vec3.unitX else d
  let d := if i.move_up then d - Vec3.unitY else d
  let d := if i.move_down then d + Vec3.unitY else d
  d

/-- `UserInput::direction()`: the code ends with `if
direction.element_sum() > 0.0 { direction = direction.normalize(); }`.
`normalize` divides by the Euclidean length (irrational in general),
so the embedding returns the accumulated vector together with the
boolean saying whether the code reaches the `normalize` call; when the
boolean is `false` the returned vector is exactly the accumulated one,
unscaled. -/
def direction (i : UserInput) : Vec3 × Bool :=
  (i.rawDirection, decide (i.rawDirection.element_sum > 0))

end UserInput

/-- An arena handle: `{pool tag, slot index}` (the `DataToken` of the
renderer sources). -/
inductive DataToken where
  | model (id : ℕ)
  | camera (id : ℕ)
deriving DecidableEq

/-- Modelled from the spec: the resource arena (`DataStore`, declared
by `object.rs` callers but missing from the sources) — "two
independent slot pools", one for models and one for cameras;
insertion "takes ownership of the resource" and "returns a stable
handle"; the current feature set never frees entries. -/
structure DataStore (μ κ : Type) where
  models : List μ
  cameras : List κ

namespace DataStore

/-- The empty arena. -/
def new : DataStore μ κ := ⟨[], []⟩

/-- Modelled from the spec: `insert_model(model) -> ModelHandle` —
appends to the model pool and returns the handle of the new slot. -/
def insert_model (s : DataStore μ κ) (m : μ) : DataToken × DataStore μ κ :=
  (.model s.models.length, ⟨s.models ++ [m], s.cameras⟩)

/-- Modelled from the spec: `insert_camera(camera) -> CameraHandle`. -/
def insert_camera (s : DataStore μ κ) (c : κ) : DataToken × DataStore μ κ :=
  (.camera s.cameras.length, ⟨s.models, s.cameras ++ [c]⟩)

/-- Modelled from the spec: `get_model(handle)` — fails exactly on an
invalid slot index. -/
def get_model (s : DataStore μ κ) (i : ℕ) : Option μ := s.models.get? i

/-- Modelled from the spec: `get_camera(handle)`. -/
def get_camera (s : DataStore μ κ) (i : ℕ) : Option κ := s.cameras.get? i

/-- Lookup through a tagged handle: a model handle consults only the
model pool and a camera handle only the camera pool (a wrong pool tag
is an invalid handle). -/
def lookup (s : DataStore μ κ) : DataToken → Option (μ ⊕ κ)
  | .model i => (s.get_model i).map Sum.inl
  | .camera i => (s.get_camera i).map Sum.inr

end DataStore

/-- Running a sequence of arena insertions (models as `Sum.inl`,
cameras as `Sum.inr`), collecting the returned handles in order. -/
def runInserts (s : DataStore μ κ) : List (μ ⊕ κ) → DataStore μ κ × List DataToken
  | [] => (s, [])
  | .inl m :: xs =>
    let p := s.insert_model m
    let q := runInserts p.2 xs
    (q.1, p.1 :: q.2)
  | .inr c :: xs =>
    let p := s.insert_camera c
    let q := runInserts p.2 xs
    (q.1, p.1 :: q.2)

/-- A panic (`unwrap` on `None`) inside the render traversal. -/
inductive RenderPanic where
  | unwrapNone
deriving DecidableEq

/-- Observable backend effects of the render traversal, in submission
order. -/
inductive RenderEvent where
  | modelUniform (id : ℕ) (u : ModelUniform)
  | draw (id : ℕ)
  | cameraUniform (id : ℕ) (u : CameraUniform)
deriving DecidableEq

/-- One iteration of the render loop body (`renderer.rs`): dispatch on
the payload of the flattened entry.  A model entry first does
`scene.get_camera_object().unwrap()`, then
`token.try_as_camera().unwrap()`, then `store.get_camera(..).unwrap()`
and `store.get_model(id).unwrap()`, and only then updates the model
uniform and draws; a camera entry looks its camera up
(`store.get_camera(id).unwrap()`) and updates the camera uniform; an
empty payload does nothing. -/
def render_entry (scene : Scene) (store : DataStore μ κ) (e : Object × Mat4) :
    Except RenderPanic (List RenderEvent) :=
  match e.1.data with
  | .model id =>
    match scene.get_camera_object with
    | none => .error .unwrapNone
    | some camObj =>
      match camObj.data.try_as_camera with
      | none => .error .unwrapNone
      | some ct =>
        match store.get_camera ct with
        | none => .error .unwrapNone
        | some _ =>
          match store.get_model id with
          | none => .error .unwrapNone
          | some _ => .ok [.modelUniform id (update_model_uniform e.2), .draw id]
  | .camera id =>
    match store.get_camera id with
    | none => .error .unwrapNone
    | some _ => .ok [.cameraUniform id (update_camera_uniform e.2)]
  | .empty => .ok []

/-- The render loop over a flattened entry list, left to right; the
first panic aborts the frame. -/
def render_list (scene : Scene) (store : DataStore μ κ) :
    List (Object × Mat4) → Except RenderPanic (List RenderEvent)
  | [] => .ok []
  | e :: rest =>
    match render_entry scene store e with
    | .error p => .error p
    | .ok evs =>
      match render_list scene store rest with
      | .error p => .error p
      | .ok more => .ok (evs ++ more)

/-- `Renderer::render(scene, store)`: iterates over
`scene.root.get_all()` in order (the per-frame global-time update is
payload-independent and omitted). -/
def render (scene : Scene) (store : DataStore μ κ) : Except RenderPanic (List RenderEvent) :=
  render_list scene store scene.root.get_all

/-- The trees obtainable by the tree-building API: a fresh
`Object::new` node, `add_child` on a built tree with a built child, or
`with_children` on a built tree with built children. -/
inductive Object.Built : Object → Prop where
  | new : ∀ d x, Object.Built (Object.new d x)
  | add_child : ∀ t c, Object.Built t → Object.Built c → Object.Built (t.add_child c)
  | with_children : ∀ t cs, Object.Built t → (∀ c ∈ cs, Object.Built c) →
      Object.Built (t.with_children cs)

/-- The node-to-root product of the local transforms collected along a
root-to-node path: the node's own local leftmost, the root's local
rightmost, applied to the identity (the root's ancestor seed). -/
def Object.worldOfPath (ls : List Mat4) : Mat4 :=
  ls.foldl (fun acc l => l * acc) Mat4.identity

/-- The model payloads of an insertion sequence, in order. -/
def sumLefts (xs : List (μ ⊕ κ)) : List μ :=
  xs.filterMap (fun x => match x with | .inl m => some m | .inr _ => none)

/-- The camera payloads of an insertion sequence, in order. -/
def sumRights (xs : List (μ ⊕ κ)) : List κ :=
  xs.filterMap (fun x => match x with | .inl _ => none | .inr c => some c)

/-- Concrete child node used by the C1 counterexample: local transform
a uniform scale by two. -/
def cC1 : Object := .mk .empty (Mat4.from_scale ⟨2, 2, 2⟩) none []

/-- Concrete tree used by the C1 counterexample: a root whose local
transform is a unit translation along x, with the scaling child. -/
def tC1 : Object := .mk .empty (Mat4.from_translation ⟨1, 0, 0⟩) none [cC1]

/-- Concrete scene used for C3: a root with one model child and no
active camera. -/
def sceneC3 : Scene :=
  { root := .mk .empty Mat4.identity none [.mk (.model 0) Mat4.identity none []],
    camera := none }

/-- Concrete arena used for C3: model slot 0 occupied, no cameras. -/
def storeC3 : DataStore Unit Unit := ⟨[()], []⟩

/-- Concrete tree used by the C10 witness. -/
def tC10 : Object :=
  (Object.new .empty Mat4.identity).add_child (Object.new (.model 0) Mat4.identity)

namespace Object

/-- Structural induction principle for the nested tree (the induction
hypothesis covers every member of the child list). -/
theorem treeInd (P : Object → Prop)
    (h : ∀ d x p cs, (∀ c ∈ cs, P c) → P (.mk d x p cs)) : ∀ t, P t := by
  have key : ∀ n : ℕ, ∀ t : Object, sizeOf t ≤ n → P t := by
    intro n
    induction n with
    | zero =>
      intro t ht
      cases t with
      | mk d x p cs =>
        simp [Object.mk.sizeOf_spec] at ht
    | succ n ih =>
      intro t ht
      cases t with
      | mk d x p cs =>
        apply h
        intro c hc
        apply ih
        have h1 : sizeOf c < sizeOf cs := List.sizeOf_lt_of_mem hc
        simp [Object.mk.sizeOf_spec] at ht
        omega
  exact fun t => key (sizeOf t) t le_rfl

/-- The child loop of the traversal, characterized without the
threaded accumulator (assuming the characterization for each child). -/
theorem get_all_children_eq_of (cs : List Object)
    (H : ∀ c ∈ cs, ∀ objs prev, c.get_all_internal objs prev = objs ++ worldPairs c prev) :
    ∀ objs cur, get_all_children cs objs cur = objs ++ worldPairsList cs cur := by
  induction cs with
  | nil => intro objs cur; simp [get_all_children, worldPairsList]
  | cons c rest ih =>
    intro objs cur
    rw [get_all_children, H c (by simp), worldPairsList,
      ih (fun c hc => H c (by simp [hc]))]
    simp

/-- `get_all_internal` appends the subtree's flattened pair list to the
accumulator. -/
theorem get_all_internal_eq :
    ∀ t : Object, ∀ objs prev, t.get_all_internal objs prev = objs ++ worldPairs t prev := by
  refine treeInd _ (fun d x p cs ih => ?_)
  intro objs prev
  rw [get_all_internal, get_all_children_eq_of cs ih, worldPairs]
  simp

/-- `get_all` is the accumulator-free flattened pair list, seeded with
the identity transform. -/
theorem get_all_eq (t : Object) : t.get_all = worldPairs t Mat4.identity := by
  simp [get_all, get_all_internal_eq]

/-- The nodes of the flattened pair list of a forest are its pre-order
listing (assuming the same for each tree of the forest). -/
theorem worldPairsList_map_fst_of (cs : List Object)
    (H : ∀ c ∈ cs, ∀ prev, (worldPairs c prev).map Prod.fst = preorderSpec c) :
    ∀ cur, (worldPairsList cs cur).map Prod.fst = preorderSpecList cs := by
  induction cs with
  | nil => intro cur; simp [worldPairsList, preorderSpecList]
  | cons c rest ih =>
    intro cur
    rw [worldPairsList, preorderSpecList]
    simp [H c (by simp), ih (fun c hc => H c (by simp [hc]))]

/-- The nodes of the flattened pair list are the pre-order listing. -/
theorem worldPairs_map_fst :
    ∀ t : Object, ∀ prev, (worldPairs t prev).map Prod.fst = preorderSpec t := by
  refine treeInd _ (fun d x p cs ih => ?_)
  intro prev
  rw [worldPairs, preorderSpec]
  simp [worldPairsList_map_fst_of cs ih]

/-- Counting occurrences in the pre-order listing of a forest equals
the structural occurrence count (assuming the same for each tree). -/
theorem preorderSpecList_count_of (x : Object) (cs : List Object)
    (H : ∀ c ∈ cs, (preorderSpec c).count x = occCount x c) :
    (preorderSpecList cs).count x = occCountList x cs := by
  induction cs with
  | nil => simp [preorderSpecList, occCountList]
  | cons c rest ih =>
    rw [preorderSpecList, occCountList, List.count_append,
      H c (by simp), ih (fun c hc => H c (by simp [hc]))]

/-- Counting occurrences in the pre-order listing equals the structural
occurrence count. -/
theorem preorderSpec_count (x : Object) :
    ∀ t : Object, (preorderSpec t).count x = occCount x t := by
  refine treeInd _ (fun d x' p cs ih => ?_)
  rw [preorderSpec, occCount, List.count_cons, preorderSpecList_count_of x cs ih]
  by_cases h : Object.mk d x' p cs = x
  · simp [h]
    omega
  · simp [h]

/-- Membership in the flattened pair list of a forest comes from
membership in the flattened pair list of one of its trees. -/
theorem mem_worldPairsList_of {c : Object} {a : Object × Mat4} :
    ∀ (cs : List Object) (cur : Mat4), c ∈ cs → a ∈ worldPairs c cur →
      a ∈ worldPairsList cs cur := by
  intro cs
  induction cs with
  | nil => intro cur hc; exact absurd hc (List.not_mem_nil c)
  | cons c0 rest ih =>
    intro cur hc ha
    rw [worldPairsList]
    rcases List.mem_cons.mp hc with h | h
    · exact List.mem_append_left _ (h ▸ ha)
    · exact List.mem_append_right _ (ih cur h ha)

/-- Path-product characterization of the world transform: if the path
`p` reaches node `n` and collects the local transforms `ls` (root
first), then the traversal seeded with `prev` pairs `n` with the
node-to-root product of `ls` applied to `prev`. -/
theorem worldPairs_path :
    ∀ (p : List ℕ) (t n : Object) (ls : List Mat4) (prev : Mat4),
      nodeAt t p = some n → localsTo t p = some ls →
      (n, ls.foldl (fun acc l => l * acc) prev) ∈ worldPairs t prev := by
  intro p
  induction p with
  | nil =>
    intro t n ls prev hn hl
    rw [nodeAt] at hn
    rw [localsTo] at hl
    injection hn with hn
    injection hl with hl
    cases t with
    | mk d x par cs =>
      rw [worldPairs, ← hn, ← hl]
      simp [xform]
  | cons i p ih =>
    intro t n ls prev hn hl
    rw [nodeAt] at hn
    rw [localsTo] at hl
    cases hc : t.children.get? i with
    | none =>
      rw [hc] at hl
      simp at hl
    | some c =>
      simp only [hc] at hn hl
      cases hl' : c.localsTo p with
      | none => simp [hl'] at hl
      | some ls' =>
        simp only [hl', Option.map_some'] at hl
        injection hl with hl
        cases t with
        | mk d x par cs =>
          rw [worldPairs]
          have hmem : c ∈ cs := by
            have := List.get?_mem hc
            simpa [children] using this
          have hstep := ih c n ls' (x * prev) hn hl'
          rw [← hl]
          simp only [List.foldl_cons, xform]
          exact List.mem_cons_of_mem _
            (mem_worldPairsList_of cs (x * prev) hmem hstep)

/-- Pre-order listing of a concatenated forest. -/
theorem preorderSpecList_append (as bs : List Object) :
    preorderSpecList (as ++ bs) = preorderSpecList as ++ preorderSpecList bs := by
  induction as with
  | nil => simp [preorderSpecList]
  | cons a rest ih => rw [List.cons_append, preorderSpecList, preorderSpecList, ih,
      List.append_assoc]

/-- Membership in the pre-order listing of a forest. -/
theorem mem_preorderSpecList {n : Object} {cs : List Object} :
    n ∈ preorderSpecList cs ↔ ∃ c ∈ cs, n ∈ preorderSpec c := by
  induction cs with
  | nil => simp [preorderSpecList]
  | cons c rest ih =>
    rw [preorderSpecList, List.mem_append, ih]
    constructor
    · rintro (h | ⟨c', hc', hn⟩)
      · exact ⟨c, by simp, h⟩
      · exact ⟨c', by simp [hc'], hn⟩
    · rintro ⟨c', hc', hn⟩
      rcases List.mem_cons.mp hc' with h | h
      · exact Or.inl (h ▸ hn)
      · exact Or.inr ⟨c', h, hn⟩

/-- A tree is the first element of its own pre-order listing. -/
theorem self_mem_preorderSpec (t : Object) : t ∈ preorderSpec t := by
  cases t with
  | mk d x p cs =>
    rw [preorderSpec]
    exact List.mem_cons_self _ _

end Object

/-- Mapping the node out of the camera-filtered flattened pair list is
the camera filter of the node list. -/
theorem map_fst_filterMap_cameras (l : List (Object × Mat4)) :
    ((l.filterMap (fun e =>
        match e.1.data with
        | ObjectData.camera _ => some e
        | _ => none)).map Prod.fst)
      = (l.map Prod.fst).filter (fun o => o.data.isCamera) := by
  induction l with
  | nil => simp
  | cons e rest ih =>
    cases hd : e.1.data with
    | empty => simp [List.filterMap_cons, hd, ObjectData.isCamera, ih]
    | model id => simp [List.filterMap_cons, hd, ObjectData.isCamera, ih]
    | camera id => simp [List.filterMap_cons, hd, ObjectData.isCamera, ih]

/-- With no stored camera, the render loop panics as soon as its entry
list contains a model payload. -/
theorem render_list_absent_camera {μ κ : Type} (scene : Scene) (store : DataStore μ κ)
    (hcam : scene.camera = none) :
    ∀ l : List (Object × Mat4), (∃ e ∈ l, e.1.data.isModel = true) →
      render_list scene store l = .error .unwrapNone := by
  intro l
  induction l with
  | nil => rintro ⟨e, he, _⟩; exact absurd he (List.not_mem_nil e)
  | cons e rest ih =>
    rintro ⟨w, hw, hwm⟩
    rw [render_list]
    cases hd : e.1.data with
    | model id =>
      simp [render_entry, hd, Scene.get_camera_object, hcam]
    | camera id =>
      have hrest : ∃ e ∈ rest, e.1.data.isModel = true := by
        rcases List.mem_cons.mp hw with h | h
        · rw [h, hd] at hwm; exact absurd hwm (by simp [ObjectData.isModel])
        · exact ⟨w, h, hwm⟩
      cases hsc : store.get_camera id with
      | none => simp [render_entry, hd, hsc]
      | some cam => simp [render_entry, hd, hsc, ih hrest]
    | empty =>
      have hrest : ∃ e ∈ rest, e.1.data.isModel = true := by
        rcases List.mem_cons.mp hw with h | h
        · rw [h, hd] at hwm; exact absurd hwm (by simp [ObjectData.isModel])
        · exact ⟨w, h, hwm⟩
      simp [render_entry, hd, ih hrest]

/-- The model pool after a run of insertions: the old pool with the
inserted model payloads appended in order. -/
theorem runInserts_models {μ κ : Type} :
    ∀ (xs : List (μ ⊕ κ)) (s : DataStore μ κ),
      ((runInserts s xs).1).models = s.models ++ sumLefts xs := by
  intro xs
  induction xs with
  | nil => intro s; simp [runInserts, sumLefts]
  | cons x rest ih =>
    intro s
    cases x with
    | inl m =>
      rw [runInserts]
      simp [DataStore.insert_model, ih, sumLefts, List.filterMap_cons]
    | inr c =>
      rw [runInserts]
      simp [DataStore.insert_camera, ih, sumLefts, List.filterMap_cons]

/-- The camera pool after a run of insertions. -/
theorem runInserts_cameras {μ κ : Type} :
    ∀ (xs : List (μ ⊕ κ)) (s : DataStore μ κ),
      ((runInserts s xs).1).cameras = s.cameras ++ sumRights xs := by
  intro xs
  induction xs with
  | nil => intro s; simp [runInserts, sumRights]
  | cons x rest ih =>
    intro s
    cases x with
    | inl m =>
      rw [runInserts]
      simp [DataStore.insert_model, ih, sumRights, List.filterMap_cons]
    | inr c =>
      rw [runInserts]
      simp [DataStore.insert_camera, ih, sumRights, List.filterMap_cons]

/-- Every model handle returned by a run of insertions indexes at or
past the end of the starting model pool. -/
theorem runInserts_model_token_lb {μ κ : Type} :
    ∀ (xs : List (μ ⊕ κ)) (s : DataStore μ κ) (i : ℕ),
      DataToken.model i ∈ (runInserts s xs).2 → s.models.length ≤ i := by
  intro xs
  induction xs with
  | nil => intro s i h; simp [runInserts] at h
  | cons x rest ih =>
    intro s i h
    cases x with
    | inl m =>
      rw [runInserts] at h
      rcases List.mem_cons.mp h with h | h
      · injection h with h
        omega
      · have := ih (s.insert_model m).2 i h
        simp [DataStore.insert_model] at this
        omega
    | inr c =>
      rw [runInserts] at h
      rcases List.mem_cons.mp h with h | h
      · exact absurd h (by simp [DataStore.insert_camera])
      · have := ih (s.insert_camera c).2 i h
        simpa [DataStore.insert_camera] using this

/-- Every camera handle returned by a run of insertions indexes at or
past the end of the starting camera pool. -/
theorem runInserts_camera_token_lb {μ κ : Type} :
    ∀ (xs : List (μ ⊕ κ)) (s : DataStore μ κ) (i : ℕ),
      DataToken.camera i ∈ (runInserts s xs).2 → s.cameras.length ≤ i := by
  intro xs
  induction xs with
  | nil => intro s i h; simp [runInserts] at h
  | cons x rest ih =>
    intro s i h
    cases x with
    | inl m =>
      rw [runInserts] at h
      rcases List.mem_cons.mp h with h | h
      · exact absurd h (by simp [DataStore.insert_model])
      · have := ih (s.insert_model m).2 i h
        simpa [DataStore.insert_model] using this
    | inr c =>
      rw [runInserts] at h
      rcases List.mem_cons.mp h with h | h
      · injection h with h
        omega
      · have := ih (s.insert_camera c).2 i h
        simp [DataStore.insert_camera] at this
        omega

/-- The handles returned by a run of insertions are pairwise distinct. -/
theorem runInserts_nodup {μ κ : Type} :
    ∀ (xs : List (μ ⊕ κ)) (s : DataStore μ κ), ((runInserts s xs).2).Nodup := by
  intro xs
  induction xs with
  | nil => intro s; simp [runInserts]
  | cons x rest ih =>
    intro s
    cases x with
    | inl m =>
      rw [runInserts]
      refine List.nodup_cons.mpr ⟨?_, ih _⟩
      intro hmem
      have := runInserts_model_token_lb rest (s.insert_model m).2 _ hmem
      simp [DataStore.insert_model] at this
    | inr c =>
      rw [runInserts]
      refine List.nodup_cons.mpr ⟨?_, ih _⟩
      intro hmem
      have := runInserts_camera_token_lb rest (s.insert_camera c).2 _ hmem
      simp [DataStore.insert_camera] at this

/-- Looking each returned handle up in the final arena yields exactly
the payload that was inserted with it. -/
theorem runInserts_lookup {μ κ : Type} :
    ∀ (xs : List (μ ⊕ κ)) (s : DataStore μ κ),
      List.Forall₂ (fun x t => ((runInserts s xs).1).lookup t = some x)
        xs (runInserts s xs).2 := by
  intro xs
  induction xs with
  | nil => intro s; simp [runInserts]
  | cons x rest ih =>
    intro s
    cases x with
    | inl m =>
      rw [runInserts]
      refine List.Forall₂.cons ?_ ?_
      · show ((runInserts (⟨s.models ++ [m], s.cameras⟩ : DataStore μ κ) rest).1).lookup
            (DataToken.model s.models.length) = some (Sum.inl m)
        rw [DataStore.lookup, DataStore.get_model, runInserts_models]
        rw [List.append_assoc, List.get?_append_right (le_refl _)]
        simp
      · exact ih (s.insert_model m).2
    | inr c =>
      rw [runInserts]
      refine List.Forall₂.cons ?_ ?_
      · show ((runInserts (⟨s.models, s.cameras ++ [c]⟩ : DataStore μ κ) rest).1).lookup
            (DataToken.camera s.cameras.length) = some (Sum.inr c)
        rw [DataStore.lookup, DataStore.get_camera, runInserts_cameras]
        rw [List.append_assoc, List.get?_append_right (le_refl _)]
        simp
      · exact ih (s.insert_camera c).2

/-- Unfolding lemma for the `Vec3` addition instance. -/
theorem vec3_add_def (a b : Vec3) : a + b = ⟨a.x + b.x, a.y + b.y, a.z + b.z⟩ := rfl

/-- Unfolding lemma for the `Vec3` subtraction instance. -/
theorem vec3_sub_def (a b : Vec3) : a - b = ⟨a.x - b.x, a.y - b.y, a.z - b.z⟩ := rfl

/-- Unfolding lemma for the `Vec4` addition instance. -/
theorem vec4_add_def (a b : Vec4) : a + b = ⟨a.x + b.x, a.y + b.y, a.z + b.z, a.w + b.w⟩ := rfl

/-- Unfolding lemma for the `Mat4` multiplication instance. -/
theorem mat4_mul_def (a b : Mat4) : a * b = Mat4.mul a b := rfl

/-- Sanity check for the embedded inverse: translations invert to the
opposite translation. -/
theorem inverse_from_translation_check :
    (Mat4.from_translation ⟨1, 2, 3⟩).inverse = Mat4.from_translation ⟨-1, -2, -3⟩ := by
  norm_num [Mat4.inverse, Mat4.det, Mat4.cof, Mat4.minorDet, Mat4.other3, Mat4.det3,
    Mat4.e, Mat4.col, Mat4.Vec4.comp, Mat4.from_translation]

/-- C1 counterexample: in the two-node tree `tC1` (root local = unit
translation along x, child local = uniform scale by two) the flatten
operation pairs the child with `child_local * (root_local * identity)`,
whereas the claim's product — ancestor product accumulated from the
root on the left, composed with the node's own local — is
`(identity * root_local) * child_local`, and the two matrices differ. -/
theorem c1_world_order_counterexample :
    (tC1.get_all).get? 1 = some (cC1,
      Mat4.from_scale ⟨2, 2, 2⟩ * (Mat4.from_translation ⟨1, 0, 0⟩ * Mat4.identity)) ∧
    (Object.claimFlatten tC1 Mat4.identity).get? 1 = some (cC1,
      (Mat4.identity * Mat4.from_translation ⟨1, 0, 0⟩) * Mat4.from_scale ⟨2, 2, 2⟩) ∧
    Mat4.from_scale ⟨2, 2, 2⟩ * (Mat4.from_translation ⟨1, 0, 0⟩ * Mat4.identity) ≠
      (Mat4.identity * Mat4.from_translation ⟨1, 0, 0⟩) * Mat4.from_scale ⟨2, 2, 2⟩ := by
  refine ⟨rfl, rfl, ?_⟩
  norm_num [mat4_mul_def, Mat4.mul, Mat4.mulVec4, Vec4.smul, vec4_add_def,
    Mat4.from_scale, Mat4.from_translation, Mat4.identity, Mat4.mk.injEq, Vec4.mk.injEq]

/-- C1 (amended): the world transform that `get_all` pairs with a node
is the product of the local transforms along the root-to-node path
taken in node-to-root order — the node's own local leftmost, then each
ancestor's local, the root's local rightmost, applied to the identity
ancestor seed. -/
theorem get_all_world_is_node_to_root_product (t : Object) (p : List ℕ) (n : Object)
    (ls : List Mat4) (hn : Object.nodeAt t p = some n)
    (hl : Object.localsTo t p = some ls) :
    (n, Object.worldOfPath ls) ∈ t.get_all := by
  rw [Object.get_all_eq, Object.worldOfPath]
  exact Object.worldPairs_path p t n ls Mat4.identity hn hl

/-- Witness for the amended C1 theorem on the concrete tree `tC1` and
the path to its only child. -/
theorem get_all_world_is_node_to_root_product_witness :
    Object.nodeAt tC1 [0] = some cC1 ∧
    Object.localsTo tC1 [0] =
      some [Mat4.from_translation ⟨1, 0, 0⟩, Mat4.from_scale ⟨2, 2, 2⟩] ∧
    (cC1, Object.worldOfPath
      [Mat4.from_translation ⟨1, 0, 0⟩, Mat4.from_scale ⟨2, 2, 2⟩]) ∈ tC1.get_all :=
  ⟨rfl, rfl,
    get_all_world_is_node_to_root_product tC1 [0] cC1
      [Mat4.from_translation ⟨1, 0, 0⟩, Mat4.from_scale ⟨2, 2, 2⟩] rfl rfl⟩

/-- C2: one flatten call lists every node of the tree exactly once, in
depth-first pre-order — the node list of `get_all` is the structural
pre-order listing (node before its subtrees, children's subtrees in
child-list order), and each node value occurs in it exactly as often
as it occurs structurally in the tree. -/
theorem get_all_preorder_exactly_once (t : Object) :
    (t.get_all).map Prod.fst = Object.preorderSpec t ∧
    ∀ x : Object, ((t.get_all).map Prod.fst).count x = Object.occCount x t := by
  have h1 : (t.get_all).map Prod.fst = Object.preorderSpec t := by
    rw [Object.get_all_eq]
    exact Object.worldPairs_map_fst t Mat4.identity
  refine ⟨h1, fun x => ?_⟩
  rw [h1]
  exact Object.preorderSpec_count x t

/-- C3 counterexample: in the concrete scene `sceneC3` (one model
entry, no active camera) the render traversal does not skip the model
entry and complete the frame — it panics at the camera unwrap, so no
frame result is produced. -/
theorem c3_absent_camera_counterexample :
    (∃ e ∈ sceneC3.root.get_all, e.1.data.isModel = true) ∧
    render sceneC3 storeC3 = .error .unwrapNone := by
  constructor
  · refine ⟨(Object.mk (ObjectData.model 0) Mat4.identity none [],
      Mat4.identity * (Mat4.identity * Mat4.identity)), ?_, rfl⟩
    have hg : sceneC3.root.get_all =
        [(sceneC3.root, Mat4.identity * Mat4.identity),
         (Object.mk (ObjectData.model 0) Mat4.identity none [],
           Mat4.identity * (Mat4.identity * Mat4.identity))] := rfl
    rw [hg]
    exact List.mem_cons_of_mem _ (List.mem_cons_self _ _)
  · rfl

/-- C3 (amended): when the scene's active camera is absent, the render
traversal does not skip camera-dependent binding: as soon as the
flattened sequence contains a model entry the frame aborts with the
camera unwrap panic (it fails explicitly; no fallback camera is ever
picked). -/
theorem render_absent_camera_panics {μ κ : Type} (scene : Scene) (store : DataStore μ κ)
    (hcam : scene.camera = none)
    (hm : ∃ e ∈ scene.root.get_all, e.1.data.isModel = true) :
    render scene store = .error .unwrapNone := by
  rw [render]
  exact render_list_absent_camera scene store hcam _ hm

/-- Witness for the amended C3 theorem on the concrete scene `sceneC3`. -/
theorem render_absent_camera_panics_witness :
    sceneC3.camera = none ∧ render sceneC3 storeC3 = .error .unwrapNone :=
  ⟨rfl, render_absent_camera_panics sceneC3 storeC3 rfl
    ⟨(Object.mk (ObjectData.model 0) Mat4.identity none [],
        Mat4.identity * (Mat4.identity * Mat4.identity)),
      by
        have hg : sceneC3.root.get_all =
            [(sceneC3.root, Mat4.identity * Mat4.identity),
             (Object.mk (ObjectData.model 0) Mat4.identity none [],
               Mat4.identity * (Mat4.identity * Mat4.identity))] := rfl
        rw [hg]
        exact List.mem_cons_of_mem _ (List.mem_cons_self _ _),
      rfl⟩⟩

/-- C4: evaluation of `UserInput::direction` refuting the claim's
normalization part while confirming its forward-only part.  With
`move_forward` and `move_right` both set the accumulated vector is
`(-1, 0, -1)`; its element sum is `-2`, so the guard
`element_sum() > 0.0` fails and the code returns the vector without
normalizing — its squared length is `2`, not `1`.  With only
`move_forward` set the code returns the unit vector `(0, 0, -1)`
unscaled as the claim states. -/
theorem direction_forward_right_unnormalized :
    UserInput.direction ⟨true, false, false, true, false, false, 0, 0⟩ =
      (⟨-1, 0, -1⟩, false) ∧
    Vec3.length_squared ⟨-1, 0, -1⟩ = 2 ∧
    UserInput.direction ⟨true, false, false, false, false, false, 0, 0⟩ =
      (⟨0, 0, -1⟩, false) ∧
    Vec3.length_squared ⟨0, 0, -1⟩ = 1 := by
  have h1 : UserInput.rawDirection ⟨true, false, false, true, false, false, 0, 0⟩ =
      ⟨-1, 0, -1⟩ := by
    norm_num [UserInput.rawDirection, Vec3.zero, Vec3.unitX, Vec3.unitY, Vec3.unitZ,
      vec3_sub_def, vec3_add_def]
  have h2 : UserInput.rawDirection ⟨true, false, false, false, false, false, 0, 0⟩ =
      ⟨0, 0, -1⟩ := by
    norm_num [UserInput.rawDirection, Vec3.zero, Vec3.unitX, Vec3.unitY, Vec3.unitZ,
      vec3_sub_def, vec3_add_def]
  refine ⟨?_, by norm_num [Vec3.length_squared], ?_, by norm_num [Vec3.length_squared]⟩
  · rw [UserInput.direction, h1]
    refine Prod.ext rfl ?_
    show decide (Vec3.element_sum ⟨-1, 0, -1⟩ > 0) = false
    apply decide_eq_false
    norm_num [Vec3.element_sum]
  · rw [UserInput.direction, h2]
    refine Prod.ext rfl ?_
    show decide (Vec3.element_sum ⟨0, 0, -1⟩ > 0) = false
    apply decide_eq_false
    norm_num [Vec3.element_sum]

/-- C5: scene construction resolves the active camera by scanning the
flattened tree — the recorded camera is the head of the camera-payload
filter of the pre-order listing of the root built from the supplied
top-level nodes.  In particular it is `none` when no camera-payload
node exists, and the first camera reached in pre-order otherwise. -/
theorem scene_new_first_preorder_camera (objs : List Object) :
    (Scene.new objs).camera =
      ((Object.preorderSpec (Object.empty.with_children objs)).filter
        (fun o => o.data.isCamera)).head? := by
  simp only [Scene.new]
  rw [Object.get_all_cameras, ← List.head?_map, map_fst_filterMap_cameras,
    Object.get_all_eq, Object.worldPairs_map_fst]

/-- C6: the per-entry uniform updates wire the world transform `W` as
the claim states — the camera uniform carries `view = inverse of W`
and `camera_pos = the translation component of W`, and the model
uniform carries `model = W` and `normal = inverse-transpose of W`. -/
theorem uniform_update_fields (W : Mat4) :
    (update_camera_uniform W).view = W.inverse ∧
    (update_camera_uniform W).camera_pos = W.translationComponent ∧
    (update_model_uniform W).model = W ∧
    (update_model_uniform W).normal = W.inverse.transpose :=
  ⟨rfl, rfl, rfl, rfl⟩

/-- C7: any sequence of model and camera insertions into a fresh arena
returns pairwise-distinct handles, and looking each returned handle up
in the resulting arena yields exactly the payload inserted under it. -/
theorem arena_inserts_distinct_identity (μ κ : Type) (xs : List (μ ⊕ κ)) :
    ((runInserts (DataStore.new : DataStore μ κ) xs).2).Nodup ∧
    List.Forall₂
      (fun x t => ((runInserts (DataStore.new : DataStore μ κ) xs).1).lookup t = some x)
      xs (runInserts (DataStore.new : DataStore μ κ) xs).2 :=
  ⟨runInserts_nodup xs _, runInserts_lookup xs _⟩

/-- C8: applying `translate(v)` and then `reset()` leaves the local
transform equal to the identity matrix whatever the starting
transform, and setting the local transform to the identity and reading
it back yields the identity. -/
theorem translate_reset_set_roundtrip (t : Object) (v : Vec3) :
    ((t.translate v).reset).get_local_xform = Mat4.identity ∧
    (t.set Mat4.identity).get_local_xform = Mat4.identity := by
  cases t with
  | mk d x p cs => exact ⟨rfl, rfl⟩

/-- C9: `set_camera` stores any object without validating its payload,
and `get_camera` hits its panic branch exactly when the stored
object's payload is not a camera — so the panic branch is unreachable
precisely under the precondition that every object passed to
`set_camera` carries a camera payload. -/
theorem set_camera_get_camera_panic_iff (s : Scene) (o : Object) :
    (s.set_camera o).camera = some o ∧
    ((s.set_camera o).get_camera = Except.error () ↔ o.data.isCamera = false) := by
  refine ⟨rfl, ?_⟩
  cases hd : o.data with
  | empty => simp [Scene.set_camera, Scene.get_camera, hd, ObjectData.isCamera]
  | model id => simp [Scene.set_camera, Scene.get_camera, hd, ObjectData.isCamera]
  | camera id => simp [Scene.set_camera, Scene.get_camera, hd, ObjectData.isCamera]

/-- C10: no tree-building operation sets a child's parent
back-reference — after any sequence of `new` / `add_child` /
`with_children` calls, every node in the resulting tree still has the
empty parent reference. -/
theorem built_parent_none (t : Object) (hb : Object.Built t) :
    ∀ n ∈ Object.preorderSpec t, n.parent = none := by
  induction hb with
  | new d x =>
    intro n hn
    rw [Object.new, Object.preorderSpec] at hn
    rcases List.mem_cons.mp hn with h | h
    · subst h
      rfl
    · rw [Object.preorderSpecList] at h
      exact absurd h (List.not_mem_nil n)
  | add_child u c hbu hbc ihu ihc =>
    intro n hn
    cases u with
    | mk d x p cs =>
      rw [Object.add_child, Object.preorderSpec] at hn
      rcases List.mem_cons.mp hn with h | h
      · have hp : p = none := by
          have := ihu (Object.mk d x p cs) (Object.self_mem_preorderSpec _)
          simpa [Object.parent] using this
        subst h
        simpa [Object.parent] using hp
      · rw [Object.preorderSpecList_append] at h
        rcases List.mem_append.mp h with h | h
        · apply ihu
          rw [Object.preorderSpec]
          exact List.mem_cons_of_mem _ h
        · have hn' : n ∈ Object.preorderSpec c := by
            simpa [Object.preorderSpecList] using h
          exact ihc n hn'
  | with_children u cs hbu hball ihu ihall =>
    intro n hn
    cases u with
    | mk d x p old =>
      rw [Object.with_children, Object.preorderSpec] at hn
      rcases List.mem_cons.mp hn with h | h
      · have hp : p = none := by
          have := ihu (Object.mk d x p old) (Object.self_mem_preorderSpec _)
          simpa [Object.parent] using this
        subst h
        simpa [Object.parent] using hp
      · rcases Object.mem_preorderSpecList.mp h with ⟨c, hc, hn'⟩
        exact ihall c hc n hn'

/-- Witness for C10 on the concrete two-node tree `tC10`. -/
theorem built_parent_none_witness :
    Object.Built tC10 ∧ tC10.parent = none :=
  ⟨Object.Built.add_child _ _ (Object.Built.new .empty Mat4.identity)
      (Object.Built.new (.model 0) Mat4.identity),
   built_parent_none tC10
     (Object.Built.add_child _ _ (Object.Built.new .empty Mat4.identity)
       (Object.Built.new (.model 0) Mat4.identity))
     tC10 (Object.self_mem_preorderSpec tC10)⟩

end QuickRender
